import Mathlib

/-!
Verification of the CoinVault / CoinDB wallet schema (`src/deps/CoinDB/src/Schema.h`)
against its natural-language specification.

The development shallowly embeds the schema's data model: structures mirror the
persisted classes (`Keychain`, `Account`, `AccountBin`, `Tx`, `TxIn`, `TxOut`,
`Version`), byte strings are `List Nat`, machine integers are `Nat`, and object
references (`shared_ptr` / `weak_ptr` back-references) are represented by the
referenced value or by the identifying data the reference carries.  Cryptographic
primitives (SHA-256, RIPEMD-160) live in an external library, so hash functions
are taken as parameters `(sha ripemd : Bytes → Bytes)`.

Inline code from `Schema.h` (boost `serialize`/`save`/`load` members, enum
values, the `KeychainView` column expressions, `isPrivate`, constants) is
translated directly.  Operation bodies that the repository keeps in `Schema.cpp`
or `Vault.cpp` (constructors, `updateHash`, `updateStatus`, `makeExport`,
schema-version checking) are modelled from the specification; each such
definition says so in its doc comment.
-/

namespace CoinDB

/-- Byte strings (`bytes_t` in the source): lists of byte values. -/
abbrev Bytes := List Nat

/-! ### Schema constants (inline in `Schema.h`) -/

/-- `#define SCHEMA_BASE_VERSION 4` (Schema.h line 47). -/
def SCHEMA_BASE_VERSION : Nat := 4

/-- `#define SCHEMA_VERSION 5` (Schema.h line 48). -/
def SCHEMA_VERSION : Nat := 5

/-- `const std::string CHANGE_BIN_NAME = "@change";` (Schema.h line 245). -/
def CHANGE_BIN_NAME : String := "@change"

/-- `const std::string DEFAULT_BIN_NAME = "@default";` (Schema.h line 246). -/
def DEFAULT_BIN_NAME : String := "@default"

/-- `AccountBin::CHANGE_INDEX = 1` (first member of the anonymous enum, Schema.h line 255). -/
def CHANGE_INDEX : Nat := 1

/-- `AccountBin::DEFAULT_INDEX = 2` (Schema.h line 256). -/
def DEFAULT_INDEX : Nat := 2

/-- `AccountBin::FIRST_CUSTOM_INDEX = 3` (Schema.h line 257). -/
def FIRST_CUSTOM_INDEX : Nat := 3

/-- `const uint32_t DEFAULT_UNUSED_POOL_SIZE = 25;` (Schema.h line 425). -/
def DEFAULT_UNUSED_POOL_SIZE : Nat := 25

/-! ### Canonical byte encoding used by the export codec model

The source streams fields through a boost binary archive.  Per the spec's design
notes, any stable canonical encoding preserving field order is acceptable; we
use length-prefixed byte strings and fixed-width little-endian integers. -/

/-- Little-endian 4-byte encoding of a 32-bit value. -/
def encU32 (n : Nat) : Bytes :=
  [n % 256, n / 256 % 256, n / 65536 % 256, n / 16777216 % 256]

/-- Little-endian 8-byte encoding of a 64-bit value. -/
def encU64 (n : Nat) : Bytes :=
  encU32 (n % 4294967296) ++ encU32 (n / 4294967296)

/-- A byte string is streamed as its length followed by its bytes. -/
def encBytes (b : Bytes) : Bytes := encU32 b.length ++ b

/-- A string is streamed as its length followed by its character codes. -/
def encStr (s : String) : Bytes :=
  encU32 s.length ++ (s.toList.map Char.toNat)

/-! ### Keychain (Schema.h lines 83-200) -/

/-- The `Keychain` persistent class.  Fields mirror Schema.h lines 150-183;
the database id, the `parent_` object pointer, the inverse `children_` list and
`derivation_path_` are dropped (no claim depends on them and the boost
`serialize` member does not stream them).  `chain_code` and `privkey` are the
`#pragma db transient` plaintext slots. -/
structure Keychain where
  name : String
  depth : Nat
  parent_fp : Nat
  child_num : Nat
  pubkey : Bytes
  chain_code : Bytes
  chain_code_ciphertext : Bytes
  chain_code_salt : Bytes
  privkey : Bytes
  privkey_ciphertext : Bytes
  privkey_salt : Bytes
  hash : Bytes
  hidden : Bool
deriving DecidableEq

/-- `bool isPrivate() const { return (!privkey_.empty()) || (!privkey_ciphertext_.empty()); }`
(Schema.h line 107). -/
def Keychain.isPrivate (k : Keychain) : Bool :=
  !k.privkey.isEmpty || !k.privkey_ciphertext.isEmpty

/-- `bool isEncrypted() const { return !privkey_salt_.empty(); }` (Schema.h line 108). -/
def Keychain.isEncrypted (k : Keychain) : Bool :=
  !k.privkey_salt.isEmpty

/-- Modelled from the spec: `Keychain::clearPrivateKey()` (declared Schema.h
line 148, body not under src/) removes all private-key material, leaving only
public fields.  The spec calls the resulting keychains
"keychains-with-secrets-stripped". -/
def Keychain.clearPrivateKey (k : Keychain) : Keychain :=
  { k with privkey := [], privkey_ciphertext := [], privkey_salt := [] }

/-- The boost `Keychain::serialize` member (Schema.h lines 186-199): streams
`name, hash, depth, parent_fp, child_num, pubkey, chain_code_ciphertext,
chain_code_salt, privkey_ciphertext, privkey_salt` in that order. -/
def Keychain.serializeBytes (k : Keychain) : Bytes :=
  encStr k.name ++ encBytes k.hash ++ encU32 k.depth ++ encU32 k.parent_fp ++
  encU32 k.child_num ++ encBytes k.pubkey ++ encBytes k.chain_code_ciphertext ++
  encBytes k.chain_code_salt ++ encBytes k.privkey_ciphertext ++ encBytes k.privkey_salt

/-- The `is_private` column of `KeychainView` (Schema.h lines 1029-1030):
`length(privkey_ciphertext_) != 0`. -/
def KeychainView.is_private (k : Keychain) : Bool :=
  !k.privkey_ciphertext.isEmpty

/-! ### Version row and schema gating (Schema.h lines 47-72) -/

/-- Outcome of checking a vault's stored schema version on open. -/
inductive OpenOutcome where
  | opened : OpenOutcome
  | migrated : OpenOutcome
  | unsupportedSchema : OpenOutcome
deriving DecidableEq

/-- Modelled from the spec: the schema-version gate applied when opening a
vault (the `Vault` open path is not under src/; `SCHEMA_BASE_VERSION` and
`SCHEMA_VERSION` are the Schema.h constants).  A stored version outside
`[SCHEMA_BASE_VERSION, SCHEMA_VERSION]` fails with UnsupportedSchema; a version
below `SCHEMA_VERSION` but in range migrates forward; a version equal to
`SCHEMA_VERSION` opens directly. -/
def openSchemaVersion (v : Nat) : OpenOutcome :=
  if v < SCHEMA_BASE_VERSION then .unsupportedSchema
  else if SCHEMA_VERSION < v then .unsupportedSchema
  else if v < SCHEMA_VERSION then .migrated
  else .opened

/-! ### AccountBin and Account (Schema.h lines 248-531) -/

/-- The `AccountBin` persistent class (Schema.h lines 296-322).  The database id
and the `account_` weak back-reference are dropped.  `keychains` is the
persisted set `keychains_`; `keychains__` is the `#pragma db transient` set of
the same name. -/
structure AccountBin where
  index : Nat
  name : String
  script_count : Nat
  next_script_index : Nat
  minsigs : Nat
  keychains : List Keychain
  keychains__ : List Keychain
  hash : Bytes
deriving DecidableEq

/-- Ascending lexicographic sort over raw byte strings (Mathlib's `≤` on
`List Nat` is the lexicographic order). -/
def sortLex (l : List Bytes) : List Bytes := List.insertionSort (· ≤ ·) l

/-- The hash preimage documented at Schema.h lines 320-321 and 474-475:
`data = concat(first byte(minsigs), keychain hash 1, keychain hash 2, ...)`
with the keychain hashes sorted lexically. -/
def hashPreimage (minsigs : Nat) (keychainHashes : List Bytes) : Bytes :=
  minsigs % 256 :: (sortLex keychainHashes).flatten

/-- Modelled from the spec: `AccountBin::updateHash` (declared Schema.h line
293, body not under src/).  The stored comment gives the formula:
`ripemd160(sha256(data))` over `hashPreimage` of the bin's own `minsigs` and
its member keychain hashes. -/
def AccountBin.updateHash (sha ripemd : Bytes → Bytes) (b : AccountBin) : AccountBin :=
  { b with hash := ripemd (sha (hashPreimage b.minsigs (b.keychains__.map Keychain.hash))) }

/-- Modelled from the spec: the `AccountBin(account, index, name)` constructor
(declared Schema.h line 261, body not under src/).  The bin records its index
and name, starts with an empty script sequence, takes the account's `minsigs`
and member keychains, and computes its hash.  (Child-keychain derivation for
derived bins is also not under src/; the member keychain list is passed in.) -/
def AccountBin.make (sha ripemd : Bytes → Bytes) (index : Nat) (name : String)
    (minsigs : Nat) (keychains : List Keychain) : AccountBin :=
  AccountBin.updateHash sha ripemd
    { index := index, name := name, script_count := 0, next_script_index := 0,
      minsigs := minsigs, keychains := keychains, keychains__ := keychains, hash := [] }

/-- The `Account` persistent class (Schema.h lines 457-478); the database id is
dropped, the inverse `bins_` vector is kept as an ordered list. -/
structure Account where
  name : String
  minsigs : Nat
  keychains : List Keychain
  unused_pool_size : Nat
  time_created : Nat
  hash : Bytes
  bins : List AccountBin
deriving DecidableEq

/-- `uint32_t bin_count() const { return bins_.size(); }` (Schema.h line 455). -/
def Account.bin_count (a : Account) : Nat := a.bins.length

/-- Modelled from the spec: `Account::updateHash` (declared Schema.h line 434,
body not under src/); identical formula to the bin hash, over the account's
`minsigs` and keychain hashes (comment at Schema.h lines 474-475). -/
def Account.updateHash (sha ripemd : Bytes → Bytes) (a : Account) : Account :=
  { a with hash := ripemd (sha (hashPreimage a.minsigs (a.keychains.map Keychain.hash))) }

/-- Modelled from the spec: the Account constructor (declared Schema.h line
432, body not under src/).  Per §4.2 of the spec it creates the two reserved
bins immediately — index `CHANGE_INDEX` named `CHANGE_BIN_NAME` and index
`DEFAULT_INDEX` named `DEFAULT_BIN_NAME` — and computes the account hash. -/
def Account.make (sha ripemd : Bytes → Bytes) (name : String) (minsigs : Nat)
    (keychains : List Keychain) (unused_pool_size : Nat) (time_created : Nat) : Account :=
  Account.updateHash sha ripemd
    { name := name, minsigs := minsigs, keychains := keychains,
      unused_pool_size := unused_pool_size, time_created := time_created, hash := [],
      bins := [AccountBin.make sha ripemd CHANGE_INDEX CHANGE_BIN_NAME minsigs keychains,
               AccountBin.make sha ripemd DEFAULT_INDEX DEFAULT_BIN_NAME minsigs keychains] }

/-- The C++ constructor declaration defaults `unused_pool_size` to
`DEFAULT_UNUSED_POOL_SIZE` (Schema.h line 432): constructing an account without
an explicit pool size is this function. -/
def Account.makeWithDefaultPoolSize (sha ripemd : Bytes → Bytes) (name : String)
    (minsigs : Nat) (keychains : List Keychain) (time_created : Nat) : Account :=
  Account.make sha ripemd name minsigs keychains DEFAULT_UNUSED_POOL_SIZE time_created

/-- Modelled from the spec: `Account::addBin(name)` (declared Schema.h line
453, body not under src/).  Custom bins occupy successive indices after the two
reserved ones: the new bin's index is `bin_count + 1`. -/
def Account.addBin (sha ripemd : Bytes → Bytes) (name : String) (a : Account) : Account :=
  { a with bins :=
      a.bins ++ [AccountBin.make sha ripemd (a.bins.length + 1) name a.minsigs a.keychains] }

/-- Fold a sequence of `addBin` calls over an account. -/
def Account.addBins (sha ripemd : Bytes → Bytes) (a : Account) : List String → Account
  | [] => a
  | n :: ns => Account.addBins sha ripemd (Account.addBin sha ripemd n a) ns

/-! ### Export codec (Schema.h boost save members) -/

/-- The boost `AccountBin::save` member (Schema.h lines 324-335): streams name,
index, next_script_index, minsigs, the keychain count and each keychain via
`Keychain::serialize`. -/
def AccountBin.saveBytes (b : AccountBin) : Bytes :=
  encStr b.name ++ encU32 b.index ++ encU32 b.next_script_index ++ encU32 b.minsigs ++
  encU32 b.keychains.length ++ (b.keychains.map Keychain.serializeBytes).flatten

/-- The boost `Account::save` member (Schema.h lines 481-497): streams name,
minsigs, the keychain count and keychains, unused_pool_size, time_created, the
bin count and each bin. -/
def Account.saveBytes (a : Account) : Bytes :=
  encStr a.name ++ encU32 a.minsigs ++
  encU32 a.keychains.length ++ (a.keychains.map Keychain.serializeBytes).flatten ++
  encU32 a.unused_pool_size ++ encU32 a.time_created ++
  encU32 a.bins.length ++ (a.bins.map AccountBin.saveBytes).flatten

/-- Apply a keychain transformation to every keychain bundled with an account:
the account's keychain set and both keychain sets of every bin. -/
def Account.mapKeychains (f : Keychain → Keychain) (a : Account) : Account :=
  { a with keychains := a.keychains.map f,
           bins := a.bins.map fun b =>
             { b with keychains := b.keychains.map f,
                      keychains__ := b.keychains__.map f } }

/-- Modelled from the spec: the account export bundle.  `makeExport` (declared
Schema.h line 290, body not under src/) "produces a canonical byte bundle:
account metadata, bin metadata including keychains-with-secrets-stripped":
every bundled keychain is stripped of private-key material before the boost
save members stream the bundle. -/
def Account.makeExportBytes (a : Account) : Bytes :=
  Account.saveBytes (Account.mapKeychains Keychain.clearPrivateKey a)

/-- Replace a keychain's private-key material (plaintext, ciphertext and salt)
with the given byte strings; used to express that the export bytes do not
depend on any of it. -/
def Keychain.withPrivateMaterial (pk pc ps : Bytes) (k : Keychain) : Keychain :=
  { k with privkey := pk, privkey_ciphertext := pc, privkey_salt := ps }

/-! ### Import codec (Schema.h boost load members, inline) -/

/-- The field stream read for one keychain by `ar & *keychain`: exactly the ten
fields of the boost `Keychain::serialize` member (Schema.h lines 186-199). -/
structure KeychainWire where
  name : String
  hash : Bytes
  depth : Nat
  parent_fp : Nat
  child_num : Nat
  pubkey : Bytes
  chain_code_ciphertext : Bytes
  chain_code_salt : Bytes
  privkey_ciphertext : Bytes
  privkey_salt : Bytes
deriving DecidableEq

/-- Reading a keychain during `AccountBin::load`: the target is constructed by
`new Keychain(true)` — hidden, with empty transient plaintext slots — and then
the ten serialized fields are assigned (Schema.h line 349 together with the
`serialize` member). -/
def Keychain.loadWire (w : KeychainWire) : Keychain :=
  { name := w.name, depth := w.depth, parent_fp := w.parent_fp,
    child_num := w.child_num, pubkey := w.pubkey, chain_code := [],
    chain_code_ciphertext := w.chain_code_ciphertext,
    chain_code_salt := w.chain_code_salt, privkey := [],
    privkey_ciphertext := w.privkey_ciphertext, privkey_salt := w.privkey_salt,
    hash := w.hash, hidden := true }

/-- The field stream read by `AccountBin::load` (Schema.h lines 337-355). -/
structure AccountBinWire where
  name : String
  index : Nat
  next_script_index : Nat
  minsigs : Nat
  keychains : List KeychainWire
deriving DecidableEq

/-- The boost `AccountBin::load` member (Schema.h lines 337-355, inline in the
source): reads name, index, next_script_index and minsigs, reads each keychain
into a hidden `Keychain`, copies the loaded keychain set into the transient set
(`keychains__ = keychains_`) and resets `script_count_ = 0`.  The bin hash is
left default-constructed (empty). -/
def AccountBin.load (w : AccountBinWire) : AccountBin :=
  { name := w.name, index := w.index, next_script_index := w.next_script_index,
    minsigs := w.minsigs, keychains := w.keychains.map Keychain.loadWire,
    keychains__ := w.keychains.map Keychain.loadWire,
    script_count := 0, hash := [] }

/-! ### Transactions (Schema.h lines 700-1003) -/

/-- `Tx::status_t` (Schema.h lines 893-904) without the `NO_STATUS` sentinel
(the recompute request of `updateStatus`) and the `ALL` mask. -/
inductive TxStatus where
  | unsigned : TxStatus
  | unsent : TxStatus
  | sent : TxStatus
  | propagated : TxStatus
  | conflicting : TxStatus
  | canceled : TxStatus
  | confirmed : TxStatus
deriving DecidableEq, Fintype

/-- The enum value of each status (Schema.h lines 896-902): UNSIGNED = 1,
UNSENT = 1<<1, SENT = 1<<2, PROPAGATED = 1<<3, CONFLICTING = 1<<4,
CANCELED = 1<<5, CONFIRMED = 1<<6. -/
def TxStatus.val : TxStatus → Nat
  | .unsigned => 1
  | .unsent => 2
  | .sent => 4
  | .propagated => 8
  | .conflicting => 16
  | .canceled => 32
  | .confirmed => 64

/-- The `TxIn` persistent class (Schema.h lines 728-743); the database id and
the `tx_` weak back-reference are dropped, `txindex` is kept. -/
structure TxIn where
  outhash : Bytes
  outindex : Nat
  script : Bytes
  sequence : Nat
  txindex : Nat
deriving DecidableEq

/-- `TxOut::status_t` (Schema.h lines 763-769). -/
inductive TxOutStatus where
  | neither : TxOutStatus
  | unspent : TxOutStatus
  | spent : TxOutStatus
  | both : TxOutStatus
deriving DecidableEq

/-- The `TxOut` persistent class (Schema.h lines 831-864).  The database id is
dropped; the `tx_` weak back-reference is modelled by `tx_hash`, the hash of
the containing transaction (the datum by which spending inputs refer to this
output); `spent` holds the referencing `TxIn`; the account / bin / script
links and labels are dropped (no claim depends on them). -/
structure TxOut where
  value : Nat
  script : Bytes
  tx_hash : Bytes
  txindex : Nat
  spent : Option TxIn
  status : TxOutStatus
deriving DecidableEq

/-- The `Tx` persistent class (Schema.h lines 951-1003); the database id, the
fee fields and the block link are dropped (no claim here depends on them). -/
structure Tx where
  hash : Bytes
  unsigned_hash : Bytes
  version : Nat
  txins : List TxIn
  txouts : List TxOut
  locktime : Nat
  timestamp : Nat
  status : TxStatus
deriving DecidableEq

/-- Modelled from the spec: the serialization of a transaction input (the
external `Coin::TxIn`): previous outpoint, script, sequence. -/
def TxIn.serializeBytes (i : TxIn) : Bytes :=
  encBytes i.outhash ++ encU32 i.outindex ++ encBytes i.script ++ encU32 i.sequence

/-- Modelled from the spec: the serialization of a transaction output (the
external `Coin::TxOut`): value and script. -/
def TxOut.serializeBytes (o : TxOut) : Bytes :=
  encU64 o.value ++ encBytes o.script

/-- Modelled from the spec: the serialization of a transaction (the external
`Coin::Transaction`): version, inputs, outputs, locktime. -/
def Tx.serializeBytes (t : Tx) : Bytes :=
  encU32 t.version ++ encU32 t.txins.length ++ (t.txins.map TxIn.serializeBytes).flatten ++
  encU32 t.txouts.length ++ (t.txouts.map TxOut.serializeBytes).flatten ++ encU32 t.locktime

/-- The transaction with every input script cleared to empty (the spec's
"serialization with every txin.script cleared"). -/
def Tx.clearScripts (t : Tx) : Tx :=
  { t with txins := t.txins.map fun i => { i with script := [] } }

/-- Double application of the hash function (double-SHA-256 when instantiated
with SHA-256). -/
def dsha (sha : Bytes → Bytes) (b : Bytes) : Bytes := sha (sha b)

/-- Modelled from the spec: the hashing rule of the comment at Schema.h lines
884-892 and 959-964 — `unsigned_hash` is the double hash of the serialization
with all input scripts removed; `hash` stays empty while status is UNSIGNED
and is the double hash of the normal serialization otherwise. -/
def Tx.updateHashes (sha : Bytes → Bytes) (t : Tx) : Tx :=
  { t with unsigned_hash := dsha sha (Tx.serializeBytes (Tx.clearScripts t)),
           hash := if t.status = .unsigned then [] else dsha sha (Tx.serializeBytes t) }

/-- Modelled from the spec: `Tx::set` (declared Schema.h lines 912-914, body
not under src/): populate the transaction and compute both hashes. -/
def Tx.make (sha : Bytes → Bytes) (version : Nat) (txins : List TxIn)
    (txouts : List TxOut) (locktime timestamp : Nat) (status : TxStatus) : Tx :=
  Tx.updateHashes sha
    { hash := [], unsigned_hash := [], version := version, txins := txins,
      txouts := txouts, locktime := locktime, timestamp := timestamp, status := status }

/-- Modelled from the spec (§4.4 insertion step 2): a second insertion with the
same `unsigned_hash` merges into the stored transaction — signatures are merged
input by input (a filled script wins over an empty placeholder), the timestamp
is refreshed while the stored transaction has not yet reached PROPAGATED, and
the identity (`unsigned_hash`) is unchanged. -/
def Tx.merge (stored incoming : Tx) : Tx :=
  { stored with
      txins := List.zipWith (fun i1 i2 => if i1.script = [] then i2 else i1)
        stored.txins incoming.txins,
      timestamp := if stored.status.val < TxStatus.propagated.val
        then incoming.timestamp else stored.timestamp }

/-- The transaction table's uniqueness constraint: `unsigned_hash` carries
`#pragma db unique` (Schema.h lines 962-964), so stored transactions have
pairwise distinct unsigned hashes. -/
def txStoreUnique (s : List Tx) : Prop :=
  List.Pairwise (fun t1 t2 => t1.unsigned_hash ≠ t2.unsigned_hash) s

/-- Modelled from the spec (§4.4 insertion): a transaction whose
`unsigned_hash` is already stored merges into the stored row; otherwise a new
row is appended. -/
def insertTxStore (s : List Tx) (t : Tx) : List Tx :=
  if s.any fun u => u.unsigned_hash = t.unsigned_hash
  then s.map fun u => if u.unsigned_hash = t.unsigned_hash then Tx.merge u t else u
  else s ++ [t]

/-! ### TxOut spend linking (claim C3) -/

/-- The `TxOut::spent` setter (declared Schema.h line 810, body not under
src/), modelled from the spec and the inline comment at Schema.h lines 862-863:
`status == SPENT if spent_ is not null. Otherwise UNSPENT.` -/
def TxOut.setSpent (o : TxOut) (i : Option TxIn) : TxOut :=
  { o with spent := i,
           status := match i with
             | some _ => .spent
             | none => .unspent }

/-- The `TxOut` constructors (Schema.h lines 787-789) start with
`status_(UNSPENT)` and no spending input recorded. -/
def TxOut.make (value : Nat) (script : Bytes) (tx_hash : Bytes) (txindex : Nat) : TxOut :=
  { value := value, script := script, tx_hash := tx_hash, txindex := txindex,
    spent := none, status := .unspent }

/-- Modelled from the spec (§4.4 insertion step 4): each inserted input is
matched against owned outputs by `(outhash, outindex)`; on a match the output
records the spending input and becomes SPENT. -/
def TxOut.linkSpend (i : TxIn) (o : TxOut) : TxOut :=
  if i.outhash = o.tx_hash ∧ i.outindex = o.txindex then TxOut.setSpent o (some i) else o

/-- The invariant of claim C3: status is SPENT iff a spending input is
recorded, status is UNSPENT otherwise (the comment at Schema.h 862-863:
`status == SPENT if spent_ is not null. Otherwise UNSPENT.`), and the recorded
input references this exact output by `(outhash, outindex)`. -/
def spentConsistent (o : TxOut) : Prop :=
  (o.status = .spent ↔ o.spent ≠ none) ∧
  (o.status = .unspent ↔ o.spent = none) ∧
  ∀ i, o.spent = some i → i.outhash = o.tx_hash ∧ i.outindex = o.txindex

/-! ### Transaction status transitions (claim C7) -/

/-- The vault operations that change a transaction's status, per the state
machine of spec §4.4 and §4.5 (`Tx::updateStatus` and the vault orchestrator
are not under src/). -/
inductive TxOp where
  | signFull : TxOp
  | broadcast : TxOp
  | peerEcho : TxOp
  | conflictDetected : TxOp
  | conflictCanceled : TxOp
  | userCancel : TxOp
  | confirmBlock : TxOp
  | reorgDetach : TxOp
  | merkleDetach : TxOp
deriving DecidableEq, Fintype

/-- Modelled from the spec: the legal status transitions of §4.4's diagram and
§4.5 — full signing moves UNSIGNED→UNSENT; broadcast UNSENT→SENT; a peer echo
SENT→PROPAGATED; conflict detection sends an unconfirmed transaction to
CONFLICTING; confirmation of a competing spend forces CONFLICTING→CANCELED;
user cancel PROPAGATED→CANCELED; a merkleblock match confirms; a reorg
dropping the block, or `deleteMerkleBlock` detaching the transactions of a
removed merkleblock, moves CONFIRMED back to PROPAGATED. -/
def applyTxOp : TxOp → TxStatus → Option TxStatus
  | .signFull, .unsigned => some .unsent
  | .broadcast, .unsent => some .sent
  | .peerEcho, .sent => some .propagated
  | .conflictDetected, .unsigned => some .conflicting
  | .conflictDetected, .unsent => some .conflicting
  | .conflictDetected, .sent => some .conflicting
  | .conflictDetected, .propagated => some .conflicting
  | .conflictCanceled, .conflicting => some .canceled
  | .userCancel, .propagated => some .canceled
  | .confirmBlock, .propagated => some .confirmed
  | .confirmBlock, .conflicting => some .confirmed
  | .reorgDetach, .confirmed => some .propagated
  | .merkleDetach, .confirmed => some .propagated
  | _, _ => none

end CoinDB

namespace CoinDB

/-! ### Helper lemmas about account construction -/

theorem Account.addBins_hash (sha ripemd : Bytes → Bytes) (ns : List String) (a : Account) :
    (Account.addBins sha ripemd a ns).hash = a.hash := by
  induction ns generalizing a with
  | nil => rfl
  | cons n ns ih => rw [Account.addBins, ih]; rfl

theorem Account.addBins_minsigs (sha ripemd : Bytes → Bytes) (ns : List String) (a : Account) :
    (Account.addBins sha ripemd a ns).minsigs = a.minsigs := by
  induction ns generalizing a with
  | nil => rfl
  | cons n ns ih => rw [Account.addBins, ih]; rfl

theorem Account.addBins_keychains (sha ripemd : Bytes → Bytes) (ns : List String) (a : Account) :
    (Account.addBins sha ripemd a ns).keychains = a.keychains := by
  induction ns generalizing a with
  | nil => rfl
  | cons n ns ih => rw [Account.addBins, ih]; rfl

theorem Account.addBins_unused_pool_size (sha ripemd : Bytes → Bytes) (ns : List String)
    (a : Account) : (Account.addBins sha ripemd a ns).unused_pool_size = a.unused_pool_size := by
  induction ns generalizing a with
  | nil => rfl
  | cons n ns ih => rw [Account.addBins, ih]; rfl

theorem Account.addBins_bins_append (sha ripemd : Bytes → Bytes) (ns : List String)
    (a : Account) : ∃ l, (Account.addBins sha ripemd a ns).bins = a.bins ++ l := by
  induction ns generalizing a with
  | nil => exact ⟨[], by simp [Account.addBins]⟩
  | cons n ns ih =>
      obtain ⟨l, hl⟩ := ih (Account.addBin sha ripemd n a)
      refine ⟨AccountBin.make sha ripemd (a.bins.length + 1) n a.minsigs a.keychains :: l, ?_⟩
      rw [Account.addBins, hl]
      simp [Account.addBin]

theorem Account.addBins_get_index (sha ripemd : Bytes → Bytes) (ns : List String) (a : Account)
    (hidx : ∀ i (h : i < a.bins.length), (a.bins.get ⟨i, h⟩).index = i + 1) :
    ∀ i (h : i < (Account.addBins sha ripemd a ns).bins.length),
      ((Account.addBins sha ripemd a ns).bins.get ⟨i, h⟩).index = i + 1 := by
  induction ns generalizing a with
  | nil => exact hidx
  | cons n ns ih =>
      rw [Account.addBins]
      refine ih _ ?_
      intro i h
      simp only [Account.addBin] at h ⊢
      simp only [List.get_eq_getElem] at h ⊢
      rcases Nat.lt_or_ge i a.bins.length with hlt | hge
      · rw [List.getElem_append_left hlt]
        exact hidx i hlt
      · have hlen : i = a.bins.length := by
          simp only [List.length_append, List.length_cons, List.length_nil] at h
          omega
        subst hlen
        rw [List.getElem_append_right (Nat.le_refl _)]
        simp [AccountBin.make, AccountBin.updateHash]

theorem Account.addBins_bin_pred (sha ripemd : Bytes → Bytes) (P : AccountBin → Prop)
    (ns : List String) (a : Account) (hP : ∀ b ∈ a.bins, P b)
    (hnew : ∀ idx nm, P (AccountBin.make sha ripemd idx nm a.minsigs a.keychains)) :
    ∀ b ∈ (Account.addBins sha ripemd a ns).bins, P b := by
  induction ns generalizing a with
  | nil => exact hP
  | cons n ns ih =>
      rw [Account.addBins]
      refine ih _ ?_ ?_
      · intro b hb
        simp only [Account.addBin] at hb
        simp only [List.mem_append, List.mem_singleton] at hb
        rcases hb with hb | hb
        · exact hP b hb
        · subst hb; exact hnew _ _
      · intro idx nm
        exact hnew idx nm

/-! ### Claim theorems (first batch) -/

/-- C9: the keychain list view computes `is_private` as
`privkey_ciphertext` non-empty, while the entity's `isPrivate()` is plaintext
privkey non-empty OR ciphertext non-empty; hence a keychain holding only a
transient plaintext private key is reported not-private by the view but
private by the entity. -/
theorem keychainView_is_private_disagrees_with_isPrivate (k : Keychain) :
    (KeychainView.is_private k = true ↔ k.privkey_ciphertext ≠ []) ∧
    (k.isPrivate = true ↔ (k.privkey ≠ [] ∨ k.privkey_ciphertext ≠ [])) ∧
    (k.privkey ≠ [] → k.privkey_ciphertext = [] →
      KeychainView.is_private k = false ∧ k.isPrivate = true) := by
  refine ⟨?_, ?_, ?_⟩
  · simp [KeychainView.is_private, List.isEmpty_iff]
  · simp [Keychain.isPrivate, List.isEmpty_iff]
  · intro hp hc
    constructor
    · simp [KeychainView.is_private, hc]
    · simp [Keychain.isPrivate, List.isEmpty_iff, hp]

/-- Witness for C9 at a concrete keychain holding only a plaintext private key. -/
theorem keychainView_is_private_disagrees_witness :
    KeychainView.is_private
      (Keychain.mk "k" 0 0 0 [2] [3] [] [] [7] [] [] [9] false) = false ∧
    Keychain.isPrivate
      (Keychain.mk "k" 0 0 0 [2] [3] [] [] [7] [] [] [9] false) = true :=
  (keychainView_is_private_disagrees_with_isPrivate
      (Keychain.mk "k" 0 0 0 [2] [3] [] [] [7] [] [] [9] false)).2.2
    (by decide) rfl

/-- C8: opening with a stored schema version outside `[4, 5]` fails with
UnsupportedSchema; a version below `SCHEMA_VERSION` but within range migrates
forward; the version equal to `SCHEMA_VERSION` opens. -/
theorem openSchemaVersion_gate (v : Nat) :
    ((v < 4 ∨ 5 < v) → openSchemaVersion v = .unsupportedSchema) ∧
    (4 ≤ v → v < 5 → openSchemaVersion v = .migrated) ∧
    (v = 5 → openSchemaVersion v = .opened) := by
  unfold openSchemaVersion SCHEMA_BASE_VERSION SCHEMA_VERSION
  refine ⟨?_, ?_, ?_⟩
  · rintro (h | h) <;> simp <;> omega
  · intro h1 h2
    have : ¬ v < 4 := by omega
    simp [this, h2]
    omega
  · intro h; subst h; simp

/-- Witness for C8 at versions 3, 4, and 5. -/
theorem openSchemaVersion_gate_witness :
    openSchemaVersion 3 = .unsupportedSchema ∧
    openSchemaVersion 4 = .migrated ∧
    openSchemaVersion 5 = .opened ∧
    openSchemaVersion 6 = .unsupportedSchema :=
  ⟨(openSchemaVersion_gate 3).1 (Or.inl (by decide)),
   (openSchemaVersion_gate 4).2.1 (by decide) (by decide),
   (openSchemaVersion_gate 5).2.2 rfl,
   (openSchemaVersion_gate 6).1 (Or.inr (by decide))⟩

/-- C10: an Account constructed without an explicit `unused_pool_size` gets the
lookahead pool size `DEFAULT_UNUSED_POOL_SIZE = 25`. -/
theorem account_default_unused_pool_size (sha ripemd : Bytes → Bytes) (name : String)
    (minsigs : Nat) (keychains : List Keychain) (time_created : Nat)
    (customNames : List String) :
    (Account.addBins sha ripemd
        (Account.makeWithDefaultPoolSize sha ripemd name minsigs keychains time_created)
        customNames).unused_pool_size = 25 ∧
    DEFAULT_UNUSED_POOL_SIZE = 25 := by
  constructor
  · rw [Account.addBins_unused_pool_size]
    rfl
  · rfl

/-- C5: an account has exactly two reserved bins — index `CHANGE_INDEX = 1`
named `@change` and index `DEFAULT_INDEX = 2` named `@default` — created at
account creation and stable under any later sequence of custom-bin additions;
no two bins share an index, every custom bin (position ≥ 2 in the ordered bin
list) has index ≥ `FIRST_CUSTOM_INDEX = 3`, and no bin ever has index 0. -/
theorem account_reserved_bins (sha ripemd : Bytes → Bytes) (name : String) (minsigs : Nat)
    (keychains : List Keychain) (pool time_created : Nat) (customNames : List String)
    (a : Account)
    (ha : a = Account.addBins sha ripemd
        (Account.make sha ripemd name minsigs keychains pool time_created) customNames) :
    (∀ b ∈ a.bins, b.index ≠ 0) ∧
    (∃ b ∈ a.bins, b.index = CHANGE_INDEX ∧ b.name = CHANGE_BIN_NAME) ∧
    (∃ b ∈ a.bins, b.index = DEFAULT_INDEX ∧ b.name = DEFAULT_BIN_NAME) ∧
    (∀ b1 ∈ a.bins, ∀ b2 ∈ a.bins, b1.index = b2.index → b1 = b2) ∧
    (∀ i (h : i < a.bins.length), 2 ≤ i → FIRST_CUSTOM_INDEX ≤ (a.bins.get ⟨i, h⟩).index) := by
  have hbase : ∀ i (h : i <
      (Account.make sha ripemd name minsigs keychains pool time_created).bins.length),
      ((Account.make sha ripemd name minsigs keychains pool time_created).bins.get
        ⟨i, h⟩).index = i + 1 := by
    intro i h
    simp only [Account.make, Account.updateHash, List.length_cons, List.length_nil] at h
    interval_cases i
    · rfl
    · rfl
  have hidx := Account.addBins_get_index sha ripemd customNames
    (Account.make sha ripemd name minsigs keychains pool time_created) hbase
  rw [← ha] at hidx
  obtain ⟨l, hl⟩ := Account.addBins_bins_append sha ripemd customNames
    (Account.make sha ripemd name minsigs keychains pool time_created)
  rw [← ha] at hl
  have hl' : a.bins =
      AccountBin.make sha ripemd CHANGE_INDEX CHANGE_BIN_NAME minsigs keychains ::
      AccountBin.make sha ripemd DEFAULT_INDEX DEFAULT_BIN_NAME minsigs keychains :: l := by
    rw [hl]; rfl
  refine ⟨?_, ?_, ?_, ?_, ?_⟩
  · intro b hb
    obtain ⟨⟨i, hi⟩, rfl⟩ := List.mem_iff_get.mp hb
    rw [hidx i hi]
    omega
  · exact ⟨AccountBin.make sha ripemd CHANGE_INDEX CHANGE_BIN_NAME minsigs keychains,
      by rw [hl']; exact List.mem_cons_self _ _, rfl, rfl⟩
  · exact ⟨AccountBin.make sha ripemd DEFAULT_INDEX DEFAULT_BIN_NAME minsigs keychains,
      by rw [hl']; exact List.mem_cons_of_mem _ (List.mem_cons_self _ _), rfl, rfl⟩
  · intro b1 hb1 b2 hb2 heq
    obtain ⟨⟨i1, hi1⟩, rfl⟩ := List.mem_iff_get.mp hb1
    obtain ⟨⟨i2, hi2⟩, rfl⟩ := List.mem_iff_get.mp hb2
    rw [hidx i1 hi1, hidx i2 hi2] at heq
    have : i1 = i2 := by omega
    subst this
    rfl
  · intro i h h2
    rw [hidx i h]
    unfold FIRST_CUSTOM_INDEX
    omega

/-- Witness for C5: a concrete account with one custom bin. -/
theorem account_reserved_bins_witness :
    ∃ b ∈ (Account.addBins id id (Account.make id id "a" 1 [] 25 0) ["x"]).bins,
      b.index = CHANGE_INDEX ∧ b.name = CHANGE_BIN_NAME :=
  (account_reserved_bins id id "a" 1 [] 25 0 ["x"]
    (Account.addBins id id (Account.make id id "a" 1 [] 25 0) ["x"]) rfl).2.1

theorem sortLex_perm (l : List Bytes) : (sortLex l).Perm l :=
  List.perm_insertionSort _ l

theorem sortLex_sorted (l : List Bytes) : (sortLex l).Sorted (· ≤ ·) :=
  List.sorted_insertionSort _ l

/-- C4: every account's stored hash is
`RIPEMD-160(SHA-256(byte(minsigs) ‖ concat(sorted keychain hashes)))`, the
keychain hashes sorted ascending lexicographically over raw bytes, and every
bin's stored hash follows the identical formula with the bin's own `minsigs`
and member keychain hashes. -/
theorem account_bin_hash_formula (sha ripemd : Bytes → Bytes) (name : String) (minsigs : Nat)
    (keychains : List Keychain) (pool time_created : Nat) (customNames : List String)
    (a : Account)
    (ha : a = Account.addBins sha ripemd
        (Account.make sha ripemd name minsigs keychains pool time_created) customNames) :
    (∃ sortedHashes : List Bytes,
        sortedHashes.Perm (a.keychains.map Keychain.hash) ∧
        sortedHashes.Sorted (· ≤ ·) ∧
        a.hash = ripemd (sha (a.minsigs % 256 :: sortedHashes.flatten))) ∧
    (∀ b ∈ a.bins, ∃ sortedHashes : List Bytes,
        sortedHashes.Perm (b.keychains__.map Keychain.hash) ∧
        sortedHashes.Sorted (· ≤ ·) ∧
        b.hash = ripemd (sha (b.minsigs % 256 :: sortedHashes.flatten))) := by
  constructor
  · refine ⟨sortLex (a.keychains.map Keychain.hash), sortLex_perm _, sortLex_sorted _, ?_⟩
    rw [ha, Account.addBins_hash, Account.addBins_keychains, Account.addBins_minsigs]
    rfl
  · rw [ha]
    refine Account.addBins_bin_pred sha ripemd _ customNames _ ?_ ?_
    · intro b hb
      have hbins : (Account.make sha ripemd name minsigs keychains pool time_created).bins =
          [AccountBin.make sha ripemd CHANGE_INDEX CHANGE_BIN_NAME minsigs keychains,
           AccountBin.make sha ripemd DEFAULT_INDEX DEFAULT_BIN_NAME minsigs keychains] := rfl
      rw [hbins] at hb
      simp only [List.mem_cons, List.not_mem_nil, or_false] at hb
      rcases hb with rfl | rfl <;>
        exact ⟨sortLex (keychains.map Keychain.hash), sortLex_perm _, sortLex_sorted _, rfl⟩
    · intro idx nm
      exact ⟨sortLex (keychains.map Keychain.hash), sortLex_perm _, sortLex_sorted _, rfl⟩

/-- Witness for C4 at a concrete two-keychain account (unsorted insertion
order), evaluating the bin conjunct at the change bin. -/
theorem account_bin_hash_formula_witness :
    ∃ sortedHashes : List Bytes,
      sortedHashes.Perm ((Account.make id id "a" 1 [] 25 0).keychains.map Keychain.hash) ∧
      sortedHashes.Sorted (· ≤ ·) ∧
      (Account.make id id "a" 1 [] 25 0).hash =
        id (id ((Account.make id id "a" 1 [] 25 0).minsigs % 256 :: sortedHashes.flatten)) :=
  (account_bin_hash_formula id id "a" 1 [] 25 0 [] (Account.make id id "a" 1 [] 25 0)
    rfl).1

theorem Account.mapKeychains_comp (f g : Keychain → Keychain) (a : Account) :
    Account.mapKeychains f (Account.mapKeychains g a) =
      Account.mapKeychains (fun k => f (g k)) a := by
  simp [Account.mapKeychains, List.map_map, Function.comp_def]

/-- C2: the export bundle carries no private-key material in any form.  First
conjunct: the export bytes are unchanged under arbitrary replacement of every
bundled keychain's `privkey`, `privkey_ciphertext` and `privkey_salt`, i.e. no
private field influences a single exported byte.  Remaining conjuncts: every
keychain streamed into the bundle (account level and bin level) has all three
private fields empty. -/
theorem export_carries_no_private_material (a : Account) (pk pc ps : Bytes) :
    Account.makeExportBytes (Account.mapKeychains (Keychain.withPrivateMaterial pk pc ps) a) =
      Account.makeExportBytes a ∧
    (∀ k ∈ (Account.mapKeychains Keychain.clearPrivateKey a).keychains,
        k.privkey = [] ∧ k.privkey_ciphertext = [] ∧ k.privkey_salt = []) ∧
    (∀ b ∈ (Account.mapKeychains Keychain.clearPrivateKey a).bins,
        ∀ k ∈ b.keychains,
          k.privkey = [] ∧ k.privkey_ciphertext = [] ∧ k.privkey_salt = []) := by
  have hfun : (fun k => Keychain.clearPrivateKey (Keychain.withPrivateMaterial pk pc ps k)) =
      Keychain.clearPrivateKey := funext fun k => rfl
  refine ⟨?_, ?_, ?_⟩
  · rw [Account.makeExportBytes, Account.makeExportBytes, Account.mapKeychains_comp, hfun]
  · intro k hk
    simp only [Account.mapKeychains, List.mem_map] at hk
    obtain ⟨k0, _, rfl⟩ := hk
    exact ⟨rfl, rfl, rfl⟩
  · intro b hb k hk
    simp only [Account.mapKeychains, List.mem_map] at hb
    obtain ⟨b0, _, rfl⟩ := hb
    simp only [List.mem_map] at hk
    obtain ⟨k0, _, rfl⟩ := hk
    exact ⟨rfl, rfl, rfl⟩

/-- Witness for C2 at a concrete account holding one keychain with plaintext,
ciphertext and salt private material. -/
theorem export_carries_no_private_material_witness :
    Account.makeExportBytes
      (Account.mapKeychains (Keychain.withPrivateMaterial [1] [2] [3])
        (Account.mk "a" 1 [Keychain.mk "k" 0 0 0 [2] [] [] [] [7] [8] [9] [1] false] 25 0 [] [])) =
    Account.makeExportBytes
      (Account.mk "a" 1 [Keychain.mk "k" 0 0 0 [2] [] [] [] [7] [8] [9] [1] false] 25 0 [] []) ∧
    (Keychain.clearPrivateKey (Keychain.mk "k" 0 0 0 [2] [] [] [] [7] [8] [9] [1] false)).privkey = [] ∧
    (Keychain.clearPrivateKey (Keychain.mk "k" 0 0 0 [2] [] [] [] [7] [8] [9] [1] false)).privkey_ciphertext = [] ∧
    (Keychain.clearPrivateKey (Keychain.mk "k" 0 0 0 [2] [] [] [] [7] [8] [9] [1] false)).privkey_salt = [] :=
  ⟨(export_carries_no_private_material
      (Account.mk "a" 1 [Keychain.mk "k" 0 0 0 [2] [] [] [] [7] [8] [9] [1] false] 25 0 [] [])
      [1] [2] [3]).1,
   (export_carries_no_private_material
      (Account.mk "a" 1 [Keychain.mk "k" 0 0 0 [2] [] [] [] [7] [8] [9] [1] false] 25 0 [] [])
      [1] [2] [3]).2.1
     (Keychain.clearPrivateKey (Keychain.mk "k" 0 0 0 [2] [] [] [] [7] [8] [9] [1] false))
     (by decide)⟩

/-- C6: a bin reconstructed by deserialization has `script_count` reset to 0,
its transient keychain set equal to the loaded set with every keychain marked
hidden, and keeps the streamed `next_script_index` and `minsigs` (pool refill
can then reissue the scripts deterministically). -/
theorem accountBin_load_resets (w : AccountBinWire) :
    (AccountBin.load w).script_count = 0 ∧
    (AccountBin.load w).keychains__ = (AccountBin.load w).keychains ∧
    (∀ k ∈ (AccountBin.load w).keychains__, k.hidden = true) ∧
    (AccountBin.load w).next_script_index = w.next_script_index ∧
    (AccountBin.load w).minsigs = w.minsigs := by
  refine ⟨rfl, rfl, ?_, rfl, rfl⟩
  intro k hk
  simp only [AccountBin.load, List.mem_map] at hk
  obtain ⟨kw, _, rfl⟩ := hk
  rfl

theorem insertTxStore_unique (s : List Tx) (t : Tx) (hs : txStoreUnique s) :
    txStoreUnique (insertTxStore s t) := by
  unfold insertTxStore
  split
  · refine List.Pairwise.map _ ?_ hs
    intro u v huv
    have hu : ∀ w : Tx,
        (if w.unsigned_hash = t.unsigned_hash then Tx.merge w t else w).unsigned_hash =
          w.unsigned_hash := by
      intro w
      split <;> rfl
    rw [hu u, hu v]
    exact huv
  · case isFalse h =>
      rw [txStoreUnique, List.pairwise_append]
      refine ⟨hs, List.pairwise_singleton _ _, ?_⟩
      intro u hu v hv
      simp only [List.mem_singleton] at hv
      subst hv
      simp only [List.any_eq_true, not_exists, not_and] at h
      intro heq
      exact absurd (by simpa using h) (by push_neg; exact ⟨u, hu, heq⟩)

/-- C1: a transaction's `unsigned_hash` is the double hash of its serialization
with every input script cleared; `hash` is empty exactly while the status is
UNSIGNED and is the double hash of the normal serialization otherwise; and
inserting into a store with pairwise-distinct unsigned hashes (the `#pragma db
unique` identity) preserves that distinctness. -/
theorem tx_unsigned_hash_identity (sha : Bytes → Bytes) (version : Nat) (txins : List TxIn)
    (txouts : List TxOut) (locktime timestamp : Nat) (status : TxStatus) :
    (Tx.make sha version txins txouts locktime timestamp status).unsigned_hash =
      sha (sha (Tx.serializeBytes
        (Tx.clearScripts (Tx.make sha version txins txouts locktime timestamp status)))) ∧
    (status = .unsigned →
      (Tx.make sha version txins txouts locktime timestamp status).hash = []) ∧
    (status ≠ .unsigned →
      (Tx.make sha version txins txouts locktime timestamp status).hash =
        sha (sha (Tx.serializeBytes (Tx.make sha version txins txouts locktime timestamp status)))) ∧
    (∀ s : List Tx, txStoreUnique s →
      txStoreUnique (insertTxStore s (Tx.make sha version txins txouts locktime timestamp status))) := by
  refine ⟨rfl, ?_, ?_, fun s hs => insertTxStore_unique s _ hs⟩
  · intro h
    simp [Tx.make, Tx.updateHashes, h]
  · intro h
    simp [Tx.make, Tx.updateHashes, dsha, h]
    rfl

/-- Witness for C1 at a concrete unsigned transaction and the empty store. -/
theorem tx_unsigned_hash_identity_witness :
    (Tx.make id 1 [] [] 0 0 .unsigned).hash = [] ∧
    txStoreUnique (insertTxStore [] (Tx.make id 1 [] [] 0 0 .unsigned)) :=
  ⟨(tx_unsigned_hash_identity id 1 [] [] 0 0 .unsigned).2.1 rfl,
   (tx_unsigned_hash_identity id 1 [] [] 0 0 .unsigned).2.2.2 [] List.Pairwise.nil⟩

/-- C3: a fresh `TxOut` is UNSPENT with no spending input, and spend-linking
preserves the invariant that status is SPENT iff `spent` is set (UNSPENT
otherwise), with the recorded `TxIn` referencing this exact output by
`(outhash, outindex)`. -/
theorem txout_spent_consistency :
    (∀ (value : Nat) (script tx_hash : Bytes) (txindex : Nat),
        spentConsistent (TxOut.make value script tx_hash txindex)) ∧
    (∀ (o : TxOut) (i : TxIn), spentConsistent o → spentConsistent (TxOut.linkSpend i o)) := by
  constructor
  · intro value script tx_hash txindex
    refine ⟨?_, ?_, ?_⟩
    · simp [TxOut.make]
    · simp [TxOut.make]
    · intro i hi
      simp [TxOut.make] at hi
  · intro o i ho
    unfold TxOut.linkSpend
    split
    · case isTrue h =>
        refine ⟨?_, ?_, ?_⟩
        · simp [TxOut.setSpent]
        · simp [TxOut.setSpent]
        · intro i' hi'
          simp only [TxOut.setSpent, Option.some.injEq] at hi'
          subst hi'
          exact ⟨h.1, h.2⟩
    · exact ho

/-- Witness for C3: linking a matching input to a fresh concrete output. -/
theorem txout_spent_consistency_witness :
    spentConsistent (TxOut.linkSpend (TxIn.mk [5] 0 [9] 4294967295 0) (TxOut.make 50 [1] [5] 0)) :=
  txout_spent_consistency.2 (TxOut.make 50 [1] [5] 0) (TxIn.mk [5] 0 [9] 4294967295 0)
    (txout_spent_consistency.1 50 [1] [5] 0)

/-- C7 counterexample: the claim says a blockchain reorg is the ONLY operation
moving a transaction to a smaller status value, but `deleteMerkleBlock` also
detaches transactions from their header, moving CONFIRMED (64) back to
PROPAGATED (8). -/
theorem status_reduction_not_only_reorg :
    applyTxOp .merkleDetach .confirmed = some .propagated ∧
    TxStatus.propagated.val < TxStatus.confirmed.val ∧
    TxOp.merkleDetach ≠ TxOp.reorgDetach := by decide

/-- C7 (amended): every status transition other than the block-detach ones
moves to a strictly larger enum value, and the only transitions that reduce the
value are a reorg dropping the block or a merkleblock deletion, both moving
CONFIRMED back to PROPAGATED. -/
theorem tx_status_transitions_monotonic :
    ∀ (op : TxOp) (s s' : TxStatus), applyTxOp op s = some s' →
      (op ≠ .reorgDetach → op ≠ .merkleDetach → s.val < s'.val) ∧
      (s'.val ≤ s.val →
        (op = .reorgDetach ∨ op = .merkleDetach) ∧ s = .confirmed ∧ s' = .propagated) := by
  decide

/-- Witness for C7's amended theorem at the signing transition. -/
theorem tx_status_transitions_monotonic_witness :
    TxStatus.unsigned.val < TxStatus.unsent.val :=
  (tx_status_transitions_monotonic .signFull .unsigned .unsent rfl).1
    (by decide) (by decide)

/-- Witness for C6 at a concrete one-keychain wire record with a nonzero
streamed script count environment. -/
theorem accountBin_load_resets_witness :
    (AccountBin.load (AccountBinWire.mk "b" 3 2 1
        [KeychainWire.mk "k" [1] 0 0 0 [2] [3] [4] [5] [6]])).script_count = 0 ∧
    (Keychain.loadWire (KeychainWire.mk "k" [1] 0 0 0 [2] [3] [4] [5] [6])).hidden = true :=
  ⟨(accountBin_load_resets (AccountBinWire.mk "b" 3 2 1
      [KeychainWire.mk "k" [1] 0 0 0 [2] [3] [4] [5] [6]])).1,
   (accountBin_load_resets (AccountBinWire.mk "b" 3 2 1
      [KeychainWire.mk "k" [1] 0 0 0 [2] [3] [4] [5] [6]])).2.2.1
     (Keychain.loadWire (KeychainWire.mk "k" [1] 0 0 0 [2] [3] [4] [5] [6]))
     (by decide)⟩

end CoinDB
